import Mathlib

set_option maxHeartbeats 1000000
set_option maxRecDepth 8000

/-!
Shallow embedding of `src/ai_channel.rs` from the rustcentral_bot repository:
the AI-channel orchestration loop (`serve`) with its bounded message history,
response truncation, sentinel suppression, error-notice lifecycle, pacing, and
the response parsing in `generate_response`.  Strings are modelled as
`List Char` (Rust `char` = Unicode scalar value), machine integers as `Nat`,
and the Rust panic inside `String::truncate` as `Option`.
-/

namespace RustcentralBot

/-- Number of bytes in the UTF-8 encoding of a character, as computed by
Rust's `char::len_utf8` (used at ai_channel.rs line 221). -/
def utf8Len (c : Char) : Nat :=
  if c.toNat < 0x80 then 1
  else if c.toNat < 0x800 then 2
  else if c.toNat < 0x10000 then 3
  else 4

/-- Total UTF-8 byte length of a character list (the Rust `String` length in
bytes). -/
def byteLen (s : List Char) : Nat := (s.map utf8Len).sum

/-- Rust `str::char_indices` starting from byte offset `i`: each character
paired with the byte offset at which it starts. -/
def charIndicesAux : Nat → List Char → List (Nat × Char)
  | _, [] => []
  | i, c :: cs => (i, c) :: charIndicesAux (i + utf8Len c) cs

/-- The byte index computed at ai_channel.rs lines 217-223:
`char_indices().take(2000).map(|v| v.0 + v.1.len_utf8()).last().unwrap_or(0)`. -/
def truncIndex (s : List Char) : Nat :=
  ((((charIndicesAux 0 s).take 2000).map fun v => v.1 + utf8Len v.2).getLast?).getD 0

/-- Rust `String::truncate n`: keep the first `n` bytes; a no-op when `n` is
at least the byte length; panics (modelled as `none`) when `n` falls strictly
inside the encoding of a character. -/
def byteTruncate : List Char → Nat → Option (List Char)
  | _, 0 => some []
  | [], _ + 1 => some []
  | c :: cs, n + 1 =>
    if utf8Len c ≤ n + 1 then (byteTruncate cs (n + 1 - utf8Len c)).map (c :: ·)
    else none

lemma utf8Len_pos (c : Char) : 0 < utf8Len c := by
  unfold utf8Len
  split_ifs <;> omega

lemma byteLen_cons (c : Char) (cs : List Char) :
    byteLen (c :: cs) = utf8Len c + byteLen cs := by
  simp [byteLen]

lemma charIndicesAux_take_getLast (s : List Char) :
    ∀ k i, s ≠ [] → k ≠ 0 →
      ((((charIndicesAux i s).take k).map fun v => v.1 + utf8Len v.2).getLast?) =
        some (i + byteLen (s.take k)) := by
  induction s with
  | nil => intro k i h _; exact absurd rfl h
  | cons c cs ih =>
    intro k i _ hk
    obtain ⟨k, rfl⟩ : ∃ m, k = m + 1 := ⟨k - 1, by omega⟩
    rcases eq_or_ne cs [] with rfl | hcs
    · simp [charIndicesAux, byteLen]
    · rcases eq_or_ne k 0 with rfl | hk0
      · simp [charIndicesAux, byteLen]
      · have h2 := ih k (i + utf8Len c) hcs hk0
        rcases cs with _ | ⟨d, ds⟩
        · exact absurd rfl hcs
        obtain ⟨k, rfl⟩ : ∃ m, k = m + 1 := ⟨k - 1, by omega⟩
        simp only [charIndicesAux, List.take_succ_cons, List.map_cons,
          List.getLast?_cons_cons] at h2 ⊢
        rw [h2]
        simp only [Option.some.injEq, byteLen_cons]
        omega

lemma truncIndex_eq_byteLen_take (s : List Char) :
    truncIndex s = byteLen (s.take 2000) := by
  rcases eq_or_ne s [] with rfl | hs
  · simp [truncIndex, charIndicesAux, byteLen]
  · unfold truncIndex
    rw [charIndicesAux_take_getLast s 2000 0 hs (by omega)]
    simp

lemma byteTruncate_byteLen_take (s : List Char) :
    ∀ k, byteTruncate s (byteLen (s.take k)) = some (s.take k) := by
  induction s with
  | nil => intro k; simp [byteTruncate, byteLen]
  | cons c cs ih =>
    intro k
    cases k with
    | zero => simp [byteTruncate, byteLen]
    | succ k =>
      have hpos := utf8Len_pos c
      have hbl : byteLen ((c :: cs).take (k + 1)) =
          utf8Len c + byteLen (cs.take k) := by
        rw [List.take_succ_cons, byteLen_cons]
      rw [hbl]
      obtain ⟨m, hm⟩ : ∃ m, utf8Len c + byteLen (cs.take k) = m + 1 :=
        ⟨utf8Len c + byteLen (cs.take k) - 1, by omega⟩
      rw [hm, List.take_succ_cons]
      simp only [byteTruncate]
      rw [if_pos (by omega)]
      have hsub : m + 1 - utf8Len c = byteLen (cs.take k) := by omega
      rw [hsub, ih k]
      rfl

/-- The truncation step at ai_channel.rs lines 216-224 never panics and keeps
exactly the first 2000 characters. -/
lemma truncate_take (s : List Char) :
    byteTruncate s (truncIndex s) = some (s.take 2000) := by
  rw [truncIndex_eq_byteLen_take]
  exact byteTruncate_byteLen_take s 2000

/-- The sentinel marker checked at ai_channel.rs line 226. -/
def markerList : List Char := "<empty/>".toList

lemma markerList_eq : markerList = ['<', 'e', 'm', 'p', 't', 'y', '/', '>'] := by
  decide

/-- Whether `pat` occurs at the very start of a list (the leading-match test
performed by Rust substring search). -/
def beginsWith : List Char → List Char → Bool
  | [], _ => true
  | _ :: _, [] => false
  | p :: ps, c :: cs => if p = c then beginsWith ps cs else false

/-- Rust `str::contains(pat)` on character lists: `pat` occurs as a contiguous
slice somewhere in the list. -/
def containsSlice (pat : List Char) : List Char → Bool
  | [] => pat.isEmpty
  | c :: rest => beginsWith pat (c :: rest) || containsSlice pat rest

lemma beginsWith_append (p t : List Char) : beginsWith p (p ++ t) = true := by
  induction p with
  | nil => rfl
  | cons c cs ih => simp [beginsWith, ih]

lemma containsSlice_of_append (p u v : List Char) :
    containsSlice p (u ++ p ++ v) = true := by
  induction u with
  | nil =>
    rw [List.nil_append]
    cases hpv : p ++ v with
    | nil =>
      have hp : p = [] := by cases p <;> simp_all
      subst hp
      rfl
    | cons c rest =>
      have hb := beginsWith_append p v
      rw [hpv] at hb
      simp [containsSlice, hb]
  | cons a u ih =>
    simp only [List.cons_append, containsSlice, List.append_eq, ih, Bool.or_true]

lemma beginsWith_marker_cons (c : Char) (l : List Char) (hc : c ≠ '<') :
    beginsWith markerList (c :: l) = false := by
  rw [markerList_eq]
  simp only [beginsWith]
  rw [if_neg (by exact fun h => hc h.symm)]

lemma containsSlice_marker_replicate (n : Nat) :
    containsSlice markerList (List.replicate n 'a') = false := by
  induction n with
  | zero => decide
  | succ n ih =>
    rw [List.replicate_succ]
    simp [containsSlice, ih, beginsWith_marker_cons 'a' _ (by decide)]

/-- The per-channel configuration fields the orchestration loop reads
(`max_history_size`, `min_history_size`).  Collaborator-facing fields
(channel id, credentials, model name, image options, prompt path) are owned
by external capabilities and elided. -/
structure Configuration where
  max_history_size : Nat
  min_history_size : Nat
  deriving DecidableEq

/-- Role-tagged chat message: the `ChatCompletionRequestMessage` variants the
loop constructs.  User content stands for the already-converted message text
(`as_chat_completion_message` is an external collaborator). -/
inductive ChatMessage where
  | System (content : List Char)
  | User (content : List Char)
  | Assistant (content : List Char)
  deriving DecidableEq

/-- Observable delivery-side effects of one loop iteration, in program
order. -/
inductive Action where
  | deleteMessage (id : Nat)
  | postError
  | sendMessage (content : List Char)
  deriving DecidableEq

/-- The orchestrator-owned mutable state of `serve`: the history buffer
(ai_channel.rs line 131), the tracked error-notice id (line 130), and the
`last_response_time` rate gate in milliseconds (line 129). -/
structure LoopState where
  history : List ChatMessage
  last_error_response : Option Nat
  last_response_time : Nat
  deriving DecidableEq

/-- Oracle inputs of one loop iteration: the drained batch of converted user
messages, the completion outcome, the id returned by `send_error_msg` (none
when posting the error notice itself failed), whether `create_message`
succeeded, and the elapsed times (ms) spent before the completion call
(drain-wait past the pacing sleep) and inside it. -/
structure CycleInput where
  batch : List (List Char)
  response : Except Unit (List Char)
  err_msg_id : Option Nat
  delivery_ok : Bool
  pre_delay : Nat
  call_duration : Nat

/-- ai_channel.rs lines 152-171: append the drained batch to the history,
then downsize from the front when the history exceeds `max_history_size`
(`saturating_sub` is `Nat` subtraction). -/
def appendAndTrim (cfg : Configuration) (history new_msgs : List ChatMessage) :
    List ChatMessage :=
  let history := history ++ new_msgs
  if history.length > cfg.max_history_size then
    history.drop (history.length - cfg.min_history_size)
  else history

/-- ai_channel.rs lines 181-195: delete the previously tracked error notice
(emitting the delete call) and clear the tracked id. -/
def errorDeleteStep (prev : Option Nat) : List Action × Option Nat :=
  match prev with
  | some prev_id => ([Action.deleteMessage prev_id], none)
  | none => ([], none)

lemma errorDeleteStep_snd (prev : Option Nat) : (errorDeleteStep prev).2 = none := by
  cases prev <;> rfl

/-- One iteration of the `serve` loop body (ai_channel.rs lines 135-242),
given the cycle's oracle inputs.  Returns the successor state, the delivery
actions emitted in order, and the time at which the completion call was
issued; `none` models the `String::truncate` panic path. -/
def serveCycle (cfg : Configuration) (prompt : List Char) (inp : CycleInput)
    (st : LoopState) : Option (LoopState × List Action × Nat) :=
  -- line 138: sleep_until(last_response_time + 1500); then the drain waits
  -- inp.pre_delay further before the batch is complete
  let invoke_time := st.last_response_time + 1500 + inp.pre_delay
  -- lines 152-171: append the drained user messages, then downsize
  let history := appendAndTrim cfg st.history (inp.batch.map ChatMessage.User)
  -- lines 173-176: request = [current_prompt] ++ history
  let _request := ChatMessage.System prompt :: history
  -- lines 178-179: generate_response returns; last_response_time = now
  let last_response_time := invoke_time + inp.call_duration
  -- lines 181-195: delete the previous error message, clear the tracked id
  let delete_acts := (errorDeleteStep st.last_error_response).1
  let last_error_response := (errorDeleteStep st.last_error_response).2
  match inp.response with
  | .error _ =>
    -- lines 197-214: post the error notice; track its id when posting worked
    some ({ history := history, last_error_response := inp.err_msg_id,
            last_response_time := last_response_time },
          delete_acts ++ [Action.postError], invoke_time)
  | .ok response_content =>
    -- lines 216-224: truncate to the first 2000 characters via byte index
    match byteTruncate response_content (truncIndex response_content) with
    | none => none
    | some response_content =>
      -- lines 226-229: the model chose not to respond
      if containsSlice markerList response_content then
        some ({ history := history, last_error_response := last_error_response,
                last_response_time := last_response_time },
              delete_acts, invoke_time)
      else
        -- lines 231-233: record the assistant reply in the history
        let history := history ++ [ChatMessage.Assistant response_content]
        if inp.delivery_ok then
          -- lines 235-242: deliver the reply
          some ({ history := history, last_error_response := last_error_response,
                  last_response_time := last_response_time },
                delete_acts ++ [Action.sendMessage response_content], invoke_time)
        else
          -- delivery failed: logged, loop continues, nothing rolled back
          some ({ history := history, last_error_response := last_error_response,
                  last_response_time := last_response_time },
                delete_acts ++ [Action.sendMessage response_content], invoke_time)

/-- ai_channel.rs lines 245-248: on shutdown, best-effort delete of a live
error notice. -/
def shutdownActs (st : LoopState) : List Action :=
  match st.last_error_response with
  | some msg_id => [Action.deleteMessage msg_id]
  | none => []

/-- The whole `serve` loop (ai_channel.rs lines 135-248) over a script of
cycle inputs.  An empty script, or a cycle whose drain returns zero items,
models the closed ingestion queue (`recv_many` returns 0 only then) and
triggers shutdown.  Returns final state, all emitted actions, and the list of
completion-invocation times. -/
def serveLoop (cfg : Configuration) (prompt : List Char) :
    List CycleInput → LoopState → Option (LoopState × List Action × List Nat)
  | [], st => some (st, shutdownActs st, [])
  | inp :: rest, st =>
    if inp.batch.length = 0 then
      -- lines 144-147: recv_amt == 0, the queue closed: break
      some (st, shutdownActs st, [])
    else
      match serveCycle cfg prompt inp st with
      | none => none
      | some (st1, acts1, t1) =>
        match serveLoop cfg prompt rest st1 with
        | none => none
        | some (st2, acts2, ts) => some (st2, acts1 ++ acts2, t1 :: ts)

lemma serveCycle_err (cfg : Configuration) (prompt : List Char)
    (batch : List (List Char)) (errId : Option Nat) (dOk : Bool)
    (preD callD : Nat) (st : LoopState) :
    serveCycle cfg prompt ⟨batch, .error (), errId, dOk, preD, callD⟩ st =
      some ({ history := appendAndTrim cfg st.history (batch.map ChatMessage.User),
              last_error_response := errId,
              last_response_time := st.last_response_time + 1500 + preD + callD },
            (errorDeleteStep st.last_error_response).1 ++ [Action.postError],
            st.last_response_time + 1500 + preD) := rfl

lemma serveCycle_ok (cfg : Configuration) (prompt : List Char)
    (batch : List (List Char)) (errId : Option Nat) (dOk : Bool)
    (preD callD : Nat) (st : LoopState) (resp : List Char) :
    serveCycle cfg prompt ⟨batch, .ok resp, errId, dOk, preD, callD⟩ st =
      (if containsSlice markerList (resp.take 2000) then
        some ({ history := appendAndTrim cfg st.history (batch.map ChatMessage.User),
                last_error_response := none,
                last_response_time := st.last_response_time + 1500 + preD + callD },
              (errorDeleteStep st.last_error_response).1,
              st.last_response_time + 1500 + preD)
      else
        some ({ history := appendAndTrim cfg st.history (batch.map ChatMessage.User) ++
                  [ChatMessage.Assistant (resp.take 2000)],
                last_error_response := none,
                last_response_time := st.last_response_time + 1500 + preD + callD },
              (errorDeleteStep st.last_error_response).1 ++
                [Action.sendMessage (resp.take 2000)],
              st.last_response_time + 1500 + preD)) := by
  cases dOk <;>
  · simp only [serveCycle]
    rw [truncate_take]
    rw [errorDeleteStep_snd]
    dsimp only
    split_ifs <;> rfl

lemma serveCycle_isSome (cfg : Configuration) (prompt : List Char)
    (inp : CycleInput) (st : LoopState) :
    (serveCycle cfg prompt inp st).isSome = true := by
  obtain ⟨batch, resp, errId, dOk, preD, callD⟩ := inp
  cases resp with
  | error e => cases e; rw [serveCycle_err]; rfl
  | ok r => rw [serveCycle_ok]; split <;> rfl

lemma serveCycle_time (cfg : Configuration) (prompt : List Char)
    (inp : CycleInput) (st st' : LoopState) (acts : List Action) (tm : Nat)
    (h : serveCycle cfg prompt inp st = some (st', acts, tm)) :
    tm = st.last_response_time + 1500 + inp.pre_delay ∧
      st'.last_response_time = tm + inp.call_duration := by
  obtain ⟨batch, resp, errId, dOk, preD, callD⟩ := inp
  cases resp with
  | error e =>
    cases e
    rw [serveCycle_err] at h
    simp only [Option.some.injEq, Prod.mk.injEq] at h
    obtain ⟨rfl, rfl, rfl⟩ := h
    exact ⟨rfl, rfl⟩
  | ok r =>
    rw [serveCycle_ok] at h
    split at h <;>
    · simp only [Option.some.injEq, Prod.mk.injEq] at h
      obtain ⟨rfl, rfl, rfl⟩ := h
      exact ⟨rfl, rfl⟩

lemma serveLoop_isSome (cfg : Configuration) (prompt : List Char) :
    ∀ (script : List CycleInput) (st : LoopState),
      (serveLoop cfg prompt script st).isSome = true := by
  intro script
  induction script with
  | nil => intro st; rfl
  | cons inp rest ih =>
    intro st
    simp only [serveLoop]
    by_cases hb : inp.batch.length = 0
    · rw [if_pos hb]; rfl
    · rw [if_neg hb]
      cases hc : serveCycle cfg prompt inp st with
      | none =>
        have := serveCycle_isSome cfg prompt inp st
        rw [hc] at this
        exact absurd this (by decide)
      | some out =>
        obtain ⟨st1, acts1, t1⟩ := out
        dsimp only
        cases hl : serveLoop cfg prompt rest st1 with
        | none =>
          have := ih st1
          rw [hl] at this
          exact absurd this (by decide)
        | some out2 =>
          obtain ⟨st2, acts2, ts⟩ := out2
          rfl

lemma serveLoop_pacing_aux (cfg : Configuration) (prompt : List Char) :
    ∀ (script : List CycleInput) (st st' : LoopState) (acts : List Action)
      (times : List Nat),
      serveLoop cfg prompt script st = some (st', acts, times) →
      List.Chain' (fun a b => a + 1500 ≤ b) times ∧
        ∀ t0 ∈ times.head?, st.last_response_time + 1500 ≤ t0 := by
  intro script
  induction script with
  | nil =>
    intro st st' acts times h
    simp only [serveLoop, Option.some.injEq, Prod.mk.injEq] at h
    obtain ⟨rfl, rfl, rfl⟩ := h
    simp
  | cons inp rest ih =>
    intro st st' acts times h
    simp only [serveLoop] at h
    by_cases hb : inp.batch.length = 0
    · rw [if_pos hb] at h
      simp only [Option.some.injEq, Prod.mk.injEq] at h
      obtain ⟨rfl, rfl, rfl⟩ := h
      simp
    · rw [if_neg hb] at h
      cases hc : serveCycle cfg prompt inp st with
      | none => rw [hc] at h; simp at h
      | some out =>
        obtain ⟨st1, acts1, t1⟩ := out
        rw [hc] at h
        simp only [] at h
        cases hl : serveLoop cfg prompt rest st1 with
        | none => rw [hl] at h; simp at h
        | some out2 =>
          obtain ⟨st2, acts2, ts⟩ := out2
          rw [hl] at h
          simp only [] at h
          simp only [Option.some.injEq, Prod.mk.injEq] at h
          obtain ⟨rfl, rfl, rfl⟩ := h
          obtain ⟨ht1, hlast⟩ := serveCycle_time cfg prompt inp st st1 acts1 t1 hc
          obtain ⟨hchain, hhead⟩ := ih st1 st2 acts2 ts hl
          constructor
          · rw [List.chain'_cons']
            refine ⟨?_, hchain⟩
            intro b hbmem
            have := hhead b hbmem
            omega
          · intro t0 ht0
            simp only [List.head?_cons, Option.mem_def, Option.some.injEq] at ht0
            omega

/-- `ChatCompletionResponseMessage`: only the `content` field is read by
`generate_response` (ai_channel.rs lines 280-286); the remaining fields are
elided. -/
structure ChatCompletionResponseMessage where
  content : Option (List Char)

/-- `ChatChoice`: only the `message` field is read. -/
structure ChatChoice where
  message : ChatCompletionResponseMessage

/-- The custom deserialization target at ai_channel.rs lines 254-257. -/
structure ChatCompletionResponse where
  choices : List ChatChoice

/-- Failure modes of `generate_response`: the request build / API transport
failures wrapped by anyhow, and the bail at line 288 when the response holds
no usable content. -/
inductive GenError where
  | apiError
  | noResponseContent

/-- ai_channel.rs lines 260-293: `generate_response` given the API outcome as
an oracle (the HTTP call itself is an external capability; the request build
at lines 265-270 does not fail for the fixed arguments used).  On success it
returns the first choice's content verbatim. -/
def generate_response (api : Except Unit ChatCompletionResponse) :
    Except GenError (List Char) :=
  match api with
  | .error _ => .error .apiError
  | .ok response =>
    match response.choices.head? with
    | some ⟨⟨some content⟩⟩ => .ok content
    | _ => .error .noResponseContent

/-- ai_channel.rs lines 123-124: capacity of the bounded ingestion queue. -/
def serveQueueCapacity (cfg : Configuration) : Nat := cfg.max_history_size / 2

/-- tokio's `mpsc::channel(buffer)` constructor, which by its documented
contract panics when `buffer` is zero; the panic is modelled as `none`. -/
def mpscChannel (capacity : Nat) : Option Nat :=
  if capacity = 0 then none else some capacity

lemma appendAndTrim_length_le (cfg : Configuration)
    (hmin : cfg.min_history_size ≤ cfg.max_history_size)
    (history new_msgs : List ChatMessage) :
    (appendAndTrim cfg history new_msgs).length ≤ cfg.max_history_size := by
  simp only [appendAndTrim]
  split_ifs with h
  · rw [List.length_drop]
    omega
  · omega

/-- C1: with `min_size ≤ max_size`, a batch append that leaves the history
longer than `max_size` drops exactly `length - min_size` entries from the
front, leaving exactly `min_size` entries; when the post-append length is at
most `max_size`, nothing is removed. -/
theorem history_eviction (cfg : Configuration)
    (hmin : cfg.min_history_size ≤ cfg.max_history_size)
    (history new_msgs : List ChatMessage) :
    (cfg.max_history_size < (history ++ new_msgs).length →
      appendAndTrim cfg history new_msgs =
          (history ++ new_msgs).drop
            ((history ++ new_msgs).length - cfg.min_history_size) ∧
        (appendAndTrim cfg history new_msgs).length = cfg.min_history_size) ∧
    ((history ++ new_msgs).length ≤ cfg.max_history_size →
      appendAndTrim cfg history new_msgs = history ++ new_msgs) := by
  simp only [appendAndTrim]
  constructor
  · intro hgt
    rw [if_pos hgt]
    refine ⟨rfl, ?_⟩
    rw [List.length_drop]
    omega
  · intro hle
    rw [if_neg (by omega)]

/-- C1 witness: the spec scenario `max_size = 4`, `min_size = 2`, batch
`[A,B,C,D,E]` drained into an empty history: three entries are evicted from
the front, leaving `[D,E]`. -/
theorem history_eviction_witness :
    appendAndTrim ⟨4, 2⟩ []
        [ChatMessage.User ['a'], ChatMessage.User ['b'], ChatMessage.User ['c'],
          ChatMessage.User ['d'], ChatMessage.User ['e']] =
      [ChatMessage.User ['d'], ChatMessage.User ['e']] ∧
    (appendAndTrim ⟨4, 2⟩ []
        [ChatMessage.User ['a'], ChatMessage.User ['b'], ChatMessage.User ['c'],
          ChatMessage.User ['d'], ChatMessage.User ['e']]).length = 2 := by
  have h := (history_eviction ⟨4, 2⟩ (by decide) []
    [ChatMessage.User ['a'], ChatMessage.User ['b'], ChatMessage.User ['c'],
      ChatMessage.User ['d'], ChatMessage.User ['e']]).1 (by decide)
  exact ⟨by rw [h.1]; rfl, h.2⟩

/-- C2 counterexample: with `max_size = 4`, `min_size = 2` and a history of
three user messages, draining one more message leaves length 4 (no eviction);
the successful cycle then appends the Assistant reply with no further check,
so immediately after that append the history holds 5 > `max_size` entries. -/
theorem history_bound_counterexample :
    serveCycle ⟨4, 2⟩ [] ⟨[['d']], .ok ['h'], none, true, 0, 0⟩
        ⟨[ChatMessage.User ['a'], ChatMessage.User ['b'], ChatMessage.User ['c']],
          none, 0⟩ =
      some (⟨[ChatMessage.User ['a'], ChatMessage.User ['b'],
              ChatMessage.User ['c'], ChatMessage.User ['d'],
              ChatMessage.Assistant ['h']], none, 1500⟩,
            [Action.sendMessage ['h']], 1500) ∧
    ¬ ((⟨[ChatMessage.User ['a'], ChatMessage.User ['b'], ChatMessage.User ['c'],
          ChatMessage.User ['d'], ChatMessage.Assistant ['h']], none, 1500⟩ :
        LoopState).history.length ≤ (⟨4, 2⟩ : Configuration).max_history_size) := by
  constructor
  · decide
  · decide

/-- C2 amended: after the batch append with its trim the history length is at
most `max_size` (given `min_size ≤ max_size`); the Assistant-reply append
performs no further trim, so after a full successful cycle the length is only
bounded by `max_size + 1` (and can reach it, per the counterexample). -/
theorem history_bound (cfg : Configuration) (prompt : List Char)
    (batch : List (List Char)) (resp : Except Unit (List Char))
    (errId : Option Nat) (dOk : Bool) (preD callD : Nat)
    (st st' : LoopState) (acts : List Action) (tm : Nat)
    (history new_msgs : List ChatMessage)
    (hmin : cfg.min_history_size ≤ cfg.max_history_size)
    (hrun : serveCycle cfg prompt ⟨batch, resp, errId, dOk, preD, callD⟩ st =
      some (st', acts, tm)) :
    (appendAndTrim cfg history new_msgs).length ≤ cfg.max_history_size ∧
    st'.history.length ≤ cfg.max_history_size + 1 := by
  refine ⟨appendAndTrim_length_le cfg hmin history new_msgs, ?_⟩
  have hbase := appendAndTrim_length_le cfg hmin st.history
    (batch.map ChatMessage.User)
  cases resp with
  | error e =>
    cases e
    rw [serveCycle_err] at hrun
    simp only [Option.some.injEq, Prod.mk.injEq] at hrun
    obtain ⟨rfl, rfl, rfl⟩ := hrun
    dsimp only
    omega
  | ok r =>
    rw [serveCycle_ok] at hrun
    split at hrun <;>
    · simp only [Option.some.injEq, Prod.mk.injEq] at hrun
      obtain ⟨rfl, rfl, rfl⟩ := hrun
      simp only [List.length_append, List.length_cons, List.length_nil]
      omega

/-- C2 amended witness: a concrete successful cycle at `max_size = 4`,
`min_size = 2` obeys both bounds. -/
theorem history_bound_witness :
    (appendAndTrim ⟨4, 2⟩ []
        [ChatMessage.User ['a'], ChatMessage.User ['b'], ChatMessage.User ['c'],
          ChatMessage.User ['d'], ChatMessage.User ['e']]).length ≤ 4 ∧
    (⟨[ChatMessage.User ['a'], ChatMessage.User ['b'], ChatMessage.User ['c'],
        ChatMessage.User ['d'], ChatMessage.Assistant ['h']], none, 1500⟩ :
      LoopState).history.length ≤ 4 + 1 := by
  exact history_bound ⟨4, 2⟩ [] [['d']] (.ok ['h']) none true 0 0
    ⟨[ChatMessage.User ['a'], ChatMessage.User ['b'], ChatMessage.User ['c']],
      none, 0⟩
    ⟨[ChatMessage.User ['a'], ChatMessage.User ['b'], ChatMessage.User ['c'],
        ChatMessage.User ['d'], ChatMessage.Assistant ['h']], none, 1500⟩
    [Action.sendMessage ['h']] 1500 []
    [ChatMessage.User ['a'], ChatMessage.User ['b'], ChatMessage.User ['c'],
      ChatMessage.User ['d'], ChatMessage.User ['e']]
    (by decide) (by decide)

/-- C3: the truncation step never splits a character (it never hits the
panicking non-boundary case and returns a whole-character prefix), keeps at
most 2000 characters — exactly the first 2000 — and returns inputs of at most
2000 characters unchanged. -/
theorem response_truncation (s : List Char) :
    byteTruncate s (truncIndex s) = some (s.take 2000) ∧
    (s.take 2000).length ≤ 2000 ∧
    (s.length ≤ 2000 → byteTruncate s (truncIndex s) = some s) := by
  refine ⟨truncate_take s, ?_, ?_⟩
  · rw [List.length_take]
    omega
  · intro hle
    rw [truncate_take s, List.take_of_length_le hle]

/-- C3 witness: 2005 plain ASCII characters truncate to exactly the first
2000, and a short input passes through unchanged. -/
theorem response_truncation_witness :
    byteTruncate (List.replicate 2005 'a') (truncIndex (List.replicate 2005 'a')) =
        some (List.replicate 2000 'a') ∧
      byteTruncate ['h'] (truncIndex ['h']) = some ['h'] := by
  constructor
  · have h := (response_truncation (List.replicate 2005 'a')).1
    have htake : (List.replicate 2005 'a').take 2000 = List.replicate 2000 'a' := by
      rw [List.take_replicate]
      norm_num
    rw [htake] at h
    exact h
  · exact (response_truncation ['h']).2.2 (by norm_num)

/-- C4 counterexample: the sentinel check runs on the already-truncated text
(ai_channel.rs line 226 follows lines 217-224), so a completion result whose
`<empty/>` marker sits entirely after the first 2000 characters is still
appended to the history and delivered, although the raw result contains the
marker. -/
theorem sentinel_claim_counterexample :
    containsSlice markerList (List.replicate 2000 'a' ++ markerList) = true ∧
    serveCycle ⟨40, 30⟩ []
        ⟨[['q']], .ok (List.replicate 2000 'a' ++ markerList), none, true, 0, 0⟩
        ⟨[], none, 0⟩ =
      some (⟨[ChatMessage.User ['q'],
              ChatMessage.Assistant (List.replicate 2000 'a')], none, 1500⟩,
            [Action.sendMessage (List.replicate 2000 'a')], 1500) := by
  constructor
  · have h := containsSlice_of_append markerList (List.replicate 2000 'a') []
    rw [List.append_nil] at h
    exact h
  · rw [serveCycle_ok]
    have htake : (List.replicate 2000 'a' ++ markerList).take 2000 =
        List.replicate 2000 'a' := by
      have h := List.take_left (List.replicate 2000 'a') markerList
      rwa [List.length_replicate] at h
    rw [htake, if_neg (by rw [containsSlice_marker_replicate]; exact fun h => nomatch h)]
    rfl

/-- C4 amended: a completion result whose TRUNCATED text (the first 2000
characters) contains `<empty/>` is discarded: no Assistant message is
appended (the history only reflects the batch append) and the only emitted
actions are the error-notice cleanup, never a send. -/
theorem sentinel_suppression (cfg : Configuration) (prompt : List Char)
    (batch : List (List Char)) (resp : List Char) (errId : Option Nat)
    (dOk : Bool) (preD callD : Nat) (st st' : LoopState) (acts : List Action)
    (tm : Nat)
    (hrun : serveCycle cfg prompt ⟨batch, .ok resp, errId, dOk, preD, callD⟩ st =
      some (st', acts, tm))
    (hm : containsSlice markerList (resp.take 2000) = true) :
    st'.history = appendAndTrim cfg st.history (batch.map ChatMessage.User) ∧
    acts = (errorDeleteStep st.last_error_response).1 := by
  rw [serveCycle_ok, if_pos hm] at hrun
  simp only [Option.some.injEq, Prod.mk.injEq] at hrun
  obtain ⟨rfl, rfl, rfl⟩ := hrun
  exact ⟨rfl, rfl⟩

/-- C4 amended witness: a reply that is exactly the marker is suppressed — the
history keeps only the batch append and no action is emitted. -/
theorem sentinel_suppression_witness :
    (⟨[ChatMessage.User ['q']], none, 1500⟩ : LoopState).history =
      appendAndTrim ⟨40, 30⟩ [] [ChatMessage.User ['q']] ∧
    ([] : List Action) = (errorDeleteStep (none : Option Nat)).1 := by
  exact sentinel_suppression ⟨40, 30⟩ [] [['q']] markerList none true 0 0
    ⟨[], none, 0⟩ ⟨[ChatMessage.User ['q']], none, 1500⟩ [] 1500
    (by decide) (by decide)

/-- C5: one tracked error-notice id at most (the state holds an `Option`);
whenever the completion call returns with a previously tracked id present,
the first emitted action deletes that id — before any new error is posted —
and the tracked id is replaced: by the new notice id on failure, by `none` on
success. -/
theorem error_notice_lifecycle (cfg : Configuration) (prompt : List Char)
    (batch : List (List Char)) (resp : Except Unit (List Char))
    (errId : Option Nat) (dOk : Bool) (preD callD : Nat)
    (st st' : LoopState) (acts : List Action) (tm : Nat) (i : Nat)
    (hrun : serveCycle cfg prompt ⟨batch, resp, errId, dOk, preD, callD⟩ st =
      some (st', acts, tm))
    (hi : st.last_error_response = some i) :
    acts.head? = some (Action.deleteMessage i) ∧
    (resp = .error () → acts = [Action.deleteMessage i, Action.postError] ∧
      st'.last_error_response = errId) ∧
    (resp ≠ .error () → st'.last_error_response = none) := by
  cases resp with
  | error e =>
    cases e
    rw [serveCycle_err] at hrun
    simp only [Option.some.injEq, Prod.mk.injEq] at hrun
    obtain ⟨rfl, rfl, rfl⟩ := hrun
    simp [errorDeleteStep, hi]
  | ok r =>
    rw [serveCycle_ok] at hrun
    split at hrun <;>
    · simp only [Option.some.injEq, Prod.mk.injEq] at hrun
      obtain ⟨rfl, rfl, rfl⟩ := hrun
      simp [errorDeleteStep, hi]

/-- C5 witness: with id 7 tracked and a failing completion whose notice posts
as id 9, the cycle deletes 7 first, then posts, and tracks 9. -/
theorem error_notice_lifecycle_witness :
    ([Action.deleteMessage 7, Action.postError] : List Action).head? =
        some (Action.deleteMessage 7) ∧
      ([Action.deleteMessage 7, Action.postError] : List Action) =
          [Action.deleteMessage 7, Action.postError] ∧
        (⟨[ChatMessage.User ['q']], some 9, 1500⟩ : LoopState).last_error_response =
          some 9 := by
  have h := error_notice_lifecycle ⟨40, 30⟩ [] [['q']] (.error ()) (some 9) true 0 0
    ⟨[], some 7, 0⟩ ⟨[ChatMessage.User ['q']], some 9, 1500⟩
    [Action.deleteMessage 7, Action.postError] 1500 7 (by decide) rfl
  exact ⟨h.1, h.2.1 rfl⟩

/-- C6: `last_response_time` is set right after every completion call returns
(on success and failure alike) and every iteration first sleeps until 1500 ms
past it, so in any run of the loop the start times of consecutive completion
invocations are at least 1500 ms apart. -/
theorem completion_pacing (cfg : Configuration) (prompt : List Char)
    (script : List CycleInput) (st st' : LoopState) (acts : List Action)
    (times : List Nat)
    (h : serveLoop cfg prompt script st = some (st', acts, times)) :
    List.Chain' (fun a b => a + 1500 ≤ b) times :=
  (serveLoop_pacing_aux cfg prompt script st st' acts times h).1

/-- C6 witness: a two-cycle run (both completions failing, the second one
also slow to drain) invokes at times 1500 and 3003, which are 1500 ms
apart. -/
theorem completion_pacing_witness :
    List.Chain' (fun a b => a + 1500 ≤ b) [1500, 3003] :=
  completion_pacing ⟨40, 30⟩ []
    [⟨[['a']], .error (), none, true, 0, 1⟩, ⟨[['b']], .error (), some 3, false, 2, 0⟩]
    ⟨[], none, 0⟩
    ⟨[ChatMessage.User ['a'], ChatMessage.User ['b']], some 3, 3003⟩
    [Action.postError, Action.postError, Action.deleteMessage 3]
    [1500, 3003] (by decide)

/-- C7: `generate_response` yields the no-content error exactly when the
response has no choices or the first choice's message has no content;
otherwise it returns the first choice's content verbatim, untruncated. -/
theorem generate_response_content (resp : ChatCompletionResponse)
    (ch : ChatChoice) (t : List Char) :
    (resp.choices.head?.bind (fun c => c.message.content) = none →
      generate_response (.ok resp) = .error .noResponseContent) ∧
    (generate_response (.ok resp) = .error .noResponseContent →
      resp.choices.head?.bind (fun c => c.message.content) = none) ∧
    (resp.choices.head? = some ch → ch.message.content = some t →
      generate_response (.ok resp) = .ok t) := by
  obtain ⟨choices⟩ := resp
  cases choices with
  | nil =>
    refine ⟨fun _ => rfl, fun _ => rfl, fun hc _ => ?_⟩
    exact absurd hc (by simp)
  | cons c0 cs =>
    obtain ⟨⟨content⟩⟩ := c0
    cases content with
    | none =>
      refine ⟨fun _ => rfl, fun _ => rfl, fun hc ht => ?_⟩
      injection hc with hc
      subst hc
      exact Option.noConfusion ht
    | some t0 =>
      refine ⟨fun hnone => ?_, fun hgen => ?_, fun hc ht => ?_⟩
      · exact Option.noConfusion hnone
      · exact Except.noConfusion hgen
      · injection hc with hc
        subst hc
        injection ht with ht
        subst ht
        rfl

/-- C7 witness: a response with one choice carrying content returns that
content verbatim. -/
theorem generate_response_content_witness :
    generate_response (.ok ⟨[⟨⟨some ['h']⟩⟩]⟩) = .ok ['h'] :=
  (generate_response_content ⟨[⟨⟨some ['h']⟩⟩]⟩ ⟨⟨some ['h']⟩⟩ ['h']).2.2 rfl rfl

/-- C8: on a successful, non-suppressed completion the Assistant message is
in the history even when delivery fails (the outcome is identical to the
successful-delivery outcome: no rollback, no termination), and the send
attempt is the final emitted action. -/
theorem delivery_failure_frame (cfg : Configuration) (prompt : List Char)
    (batch : List (List Char)) (resp : List Char) (errId : Option Nat)
    (preD callD : Nat) (st st' : LoopState) (acts : List Action) (tm : Nat)
    (hrun : serveCycle cfg prompt ⟨batch, .ok resp, errId, false, preD, callD⟩ st =
      some (st', acts, tm))
    (hm : containsSlice markerList (resp.take 2000) = false) :
    serveCycle cfg prompt ⟨batch, .ok resp, errId, true, preD, callD⟩ st =
      some (st', acts, tm) ∧
    st'.history = appendAndTrim cfg st.history (batch.map ChatMessage.User) ++
      [ChatMessage.Assistant (resp.take 2000)] ∧
    acts.getLast? = some (Action.sendMessage (resp.take 2000)) := by
  rw [serveCycle_ok] at hrun
  rw [if_neg (by rw [hm]; exact fun h => nomatch h)] at hrun
  simp only [Option.some.injEq, Prod.mk.injEq] at hrun
  obtain ⟨rfl, rfl, rfl⟩ := hrun
  refine ⟨?_, rfl, ?_⟩
  · rw [serveCycle_ok]
    rw [if_neg (by rw [hm]; exact fun h => nomatch h)]
  · exact List.getLast?_concat _

/-- C8 witness: a concrete cycle whose delivery fails still records the
Assistant reply and behaves exactly like the delivered one. -/
theorem delivery_failure_frame_witness :
    serveCycle ⟨40, 30⟩ [] ⟨[['q']], .ok ['h', 'i'], none, true, 0, 0⟩
        ⟨[], none, 0⟩ =
      some (⟨[ChatMessage.User ['q'], ChatMessage.Assistant ['h', 'i']],
              none, 1500⟩,
            [Action.sendMessage ['h', 'i']], 1500) ∧
    (⟨[ChatMessage.User ['q'], ChatMessage.Assistant ['h', 'i']], none, 1500⟩ :
        LoopState).history =
      appendAndTrim ⟨40, 30⟩ [] [ChatMessage.User ['q']] ++
        [ChatMessage.Assistant (List.take 2000 ['h', 'i'])] ∧
    ([Action.sendMessage ['h', 'i']] : List Action).getLast? =
      some (Action.sendMessage (List.take 2000 ['h', 'i'])) := by
  exact delivery_failure_frame ⟨40, 30⟩ [] [['q']] ['h', 'i'] none 0 0
    ⟨[], none, 0⟩
    ⟨[ChatMessage.User ['q'], ChatMessage.Assistant ['h', 'i']], none, 1500⟩
    [Action.sendMessage ['h', 'i']] 1500 (by decide) (by decide)

/-- C9: the loop never aborts with an error for any script of cycles
(completion failures and delivery failures included); it terminates exactly
on a zero-item drain with the queue closed, upon which it deletes the live
error notice (when one is tracked) and returns. -/
theorem loop_shutdown (cfg : Configuration) (prompt : List Char)
    (script : List CycleInput) (st : LoopState) (inp : CycleInput)
    (rest : List CycleInput) (i : Nat)
    (he : inp.batch.length = 0) (hi : st.last_error_response = some i) :
    (serveLoop cfg prompt script st).isSome = true ∧
    serveLoop cfg prompt [] st = some (st, shutdownActs st, []) ∧
    serveLoop cfg prompt (inp :: rest) st = some (st, shutdownActs st, []) ∧
    shutdownActs st = [Action.deleteMessage i] := by
  refine ⟨serveLoop_isSome cfg prompt script st, rfl, ?_, ?_⟩
  · simp only [serveLoop]
    rw [if_pos he]
  · simp [shutdownActs, hi]

/-- C9 witness: a failing-cycle script still runs to completion, and a closed
queue (zero-item drain) shuts down immediately, deleting notice 5. -/
theorem loop_shutdown_witness :
    (serveLoop ⟨40, 30⟩ [] [⟨[['a']], .error (), none, false, 0, 0⟩]
        ⟨[], some 5, 0⟩).isSome = true ∧
    serveLoop ⟨40, 30⟩ [] [] ⟨[], some 5, 0⟩ =
      some (⟨[], some 5, 0⟩, shutdownActs ⟨[], some 5, 0⟩, []) ∧
    serveLoop ⟨40, 30⟩ [] [⟨[], .ok [], none, true, 0, 0⟩] ⟨[], some 5, 0⟩ =
      some (⟨[], some 5, 0⟩, shutdownActs ⟨[], some 5, 0⟩, []) ∧
    shutdownActs ⟨[], some 5, 0⟩ = [Action.deleteMessage 5] := by
  exact loop_shutdown ⟨40, 30⟩ [] [⟨[['a']], .error (), none, false, 0, 0⟩]
    ⟨[], some 5, 0⟩ ⟨[], .ok [], none, true, 0, 0⟩ [] 5 rfl rfl

/-- C10: the ingestion queue is built with capacity
`max_history_size / 2` (floor), so any `max_history_size < 2` yields capacity
zero and the tokio channel constructor panics — the pipeline crashes at
startup rather than failing like a logged startup error. -/
theorem queue_capacity_zero (cfg : Configuration)
    (h : cfg.max_history_size < 2) :
    serveQueueCapacity cfg = 0 ∧ mpscChannel (serveQueueCapacity cfg) = none := by
  have hz : serveQueueCapacity cfg = 0 := Nat.div_eq_of_lt h
  exact ⟨hz, by rw [hz]; rfl⟩

/-- C10 witness: `max_history_size = 1` gives a zero-capacity queue and the
panicking constructor call. -/
theorem queue_capacity_zero_witness :
    serveQueueCapacity ⟨1, 30⟩ = 0 ∧ mpscChannel (serveQueueCapacity ⟨1, 30⟩) = none :=
  queue_capacity_zero ⟨1, 30⟩ (by decide)

end RustcentralBot
